import Mathlib

/-!
Shallow embedding of the Spinnaker pipeline creation module
(src/foremast/pipeline/create_pipeline.py) of the foremast repository.

The embedding models the class SpinnakerPipeline.  External collaborators
(template rendering, AMI and subnet lookups, the construct_pipeline_block
and renumerate_stages helpers that live outside the provided sources, and
the remote HTTP endpoint) are abstracted as oracle fields of a context
record; the control flow of post_pipeline, render_wrapper and
create_pipeline is translated statement by statement.  Side effects that
matter to the specification (the clean step, AMI lookup, template fetch,
skipping an unavailable environment, rendering an environment block,
renumbering, POSTing a pipeline) are recorded in an event trace.
-/

/-- Environment identifier, e.g. dev, stage, prod. -/
abbrev Env := String

/-- AWS region identifier, e.g. us-east-1. -/
abbrev Region := String

/-- Opaque stage payload: one element of the JSON stages list. -/
abbrev Stage := String

/-- Opaque subnet data: the value of subnets[env][region]. -/
abbrev SubnetData := String

/-- The exception SpinnakerPipelineCreationFailed with its message. -/
inductive Err where
  | creationFailed (msg : String)
deriving DecidableEq

/-- Remote HTTP response to a POST of a pipeline: status code and the body
returned by the remote endpoint (the payload that response.json() yields). -/
structure Response where
  status : Nat
  body : String
deriving DecidableEq

/-- The ok flag of a requests Response: true exactly when the status code is
less than 400 (this is the documented behaviour of requests.Response.ok used
at line 70 of create_pipeline.py). -/
def responseOk (r : Response) : Bool := r.status < 400

/-- post_pipeline (lines 48 to 76): sends the pipeline JSON and, when the
response is not ok, raises SpinnakerPipelineCreationFailed with a message
built from the application name and the response payload. -/
def post_pipeline (appName : String) (r : Response) : Except Err Unit :=
  if !(responseOk r) then
    Except.error (Err.creationFailed
      ("Failed to create pipeline for " ++ appName ++ ": " ++ r.body))
  else
    Except.ok ()

/-- One step of the defaultdict accumulation regions_envs[region].append(env)
(line 147): the entry of the first matching key is extended, and a missing
key is appended at the end, matching Python dict insertion order. -/
def addEnvRegion (acc : List (Region × List Env)) (region : Region) (env : Env) :
    List (Region × List Env) :=
  match acc with
  | [] => [(region, [env])]
  | (q, es) :: rest =>
      if q = region then (q, es ++ [env]) :: rest
      else (q, es) :: addEnvRegion rest region env

/-- Matrix resolution (lines 144 to 147): for each environment in declaration
order, for each of its regions in order, append the environment to the entry
of that region. -/
def resolveRegionsEnvs (envs : List Env) (regionsOf : Env → List Region) :
    List (Region × List Env) :=
  envs.foldl (fun acc env => (regionsOf env).foldl (fun a r => addEnvRegion a r env) acc) []

/-- Read the environment list recorded for a region, empty when the region is
absent (as reading a missing key of a defaultdict(list) would give). -/
def lookupEnvs (m : List (Region × List Env)) (region : Region) : List Env :=
  match m with
  | [] => []
  | (q, es) :: rest => if q = region then es else lookupEnvs rest region

/-- Keys of the region-to-environments mapping, in insertion order. -/
def keysOf (m : List (Region × List Env)) : List Region := m.map Prod.fst

/-- Number of occurrences of a region in a list of regions. -/
def countR (r : Region) : List Region → Nat
  | [] => 0
  | x :: rest => (if x = r then 1 else 0) + countR r rest

/-- Specification-side description of one entry of the resolved mapping: each
environment repeated as many times as it declares the region. -/
def replicatedEnvs (ro : Env → List Region) (r : Region) : List Env → List Env
  | [] => []
  | e :: rest => List.replicate (countR r (ro e)) e ++ replicatedEnvs ro r rest

/-- Region declarations of the concrete example of the specification:
dev in us-east-1, stage in us-east-1 and us-west-2, prod in us-west-2. -/
def exampleRegionsOf : Env → List Region := fun e =>
  if e = "dev" then ["us-east-1"]
  else if e = "stage" then ["us-east-1", "us-west-2"]
  else if e = "prod" then ["us-west-2"]
  else []

/-- Context of one create_pipeline run: the configuration read from the
settings, plus oracles for every external collaborator.  Fields in order:
application name, pipeline environments (settings pipeline env), the region
list each environment declares (settings[env] regions), the configured
root_volume_size, the parsed stages of the rendered wrapper template per
region, the subnet lookup (none models the KeyError at line 162), the
construct_pipeline_block collaborator (arguments: env, previous_env, region,
region subnet data), the renumerate_stages collaborator, and the remote
response to POSTing a given stage list for a given region. -/
structure Ctx where
  appName : String
  envs : List Env
  regionsOf : Env → List Region
  rootVolumeSize : Nat
  wrapperStages : Region → List Stage
  subnets : Env → Region → Option SubnetData
  constructBlock : Env → Option Env → Region → SubnetData → List Stage
  renumerate : List Stage → List Stage
  postResponse : Region → List Stage → Response

/-- Observable events of a create_pipeline run, in program order. -/
inductive Event where
  | cleanPipelines
  | amiLookup (region : Region)
  | getTemplate (region : Region)
  | skipEnv (env : Env) (region : Region)
  | renderBlock (env : Env) (prev : Option Env) (region : Region)
  | renumerateStages (region : Region)
  | post (region : Region)
deriving DecidableEq

/-- Events that neither delete nor create a remote pipeline. -/
def isNeutral : Event → Bool
  | Event.cleanPipelines => false
  | Event.post _ => false
  | _ => true

/-- render_wrapper (lines 78 to 129): when root_volume_size exceeds 50 the
function raises before the AMI lookup and before fetching the wrapper
template; otherwise it performs both and returns the wrapper stages. -/
def render_wrapper (ctx : Ctx) (region : Region) :
    List Event × Except Err (List Stage) :=
  if ctx.rootVolumeSize > 50 then
    ([], Except.error (Err.creationFailed
      ("Setting root_volume_size over 50G is not allowed. We found " ++
        toString ctx.rootVolumeSize ++ "G in your configs.")))
  else
    ([Event.amiLookup region, Event.getTemplate region],
      Except.ok (ctx.wrapperStages region))

/-- Inner loop of create_pipeline (lines 159 to 178): walk the environments of
one region, skipping an environment whose subnet lookup raises KeyError (with
an informational record), otherwise rendering its block with the previous
available environment as predecessor, extending the stage list, and making
the environment the new predecessor. -/
def processEnvs (ctx : Ctx) (region : Region) (prev : Option Env)
    (stages : List Stage) : List Env → List Event × List Stage
  | [] => ([], stages)
  | env :: rest =>
      match ctx.subnets env region with
      | none =>
          let out := processEnvs ctx region prev stages rest
          (Event.skipEnv env region :: out.1, out.2)
      | some sd =>
          let block := ctx.constructBlock env prev region sd
          let out := processEnvs ctx region (some env) (stages ++ block) rest
          (Event.renderBlock env prev region :: out.1, out.2)

/-- First loop of create_pipeline (lines 154 to 178): for each region of the
resolved mapping, render the wrapper (a raise propagates), then extend it with
the blocks of the available environments of that region. -/
def assembleRegions (ctx : Ctx) :
    List (Region × List Env) → List Event × Except Err (List (Region × List Stage))
  | [] => ([], Except.ok [])
  | (region, envs) :: rest =>
      let w := render_wrapper ctx region
      match w.2 with
      | Except.error e => (w.1, Except.error e)
      | Except.ok ws =>
          let pe := processEnvs ctx region none ws envs
          let tail := assembleRegions ctx rest
          match tail.2 with
          | Except.error e => (w.1 ++ pe.1 ++ tail.1, Except.error e)
          | Except.ok ps => (w.1 ++ pe.1 ++ tail.1, Except.ok ((region, pe.2) :: ps))

/-- Second loop of create_pipeline (lines 182 to 185): for each assembled
pipeline in order, renumber its stages and POST it; a raise of post_pipeline
propagates and aborts the loop. -/
def postRegions (ctx : Ctx) :
    List (Region × List Stage) → List Event × Except Err Unit
  | [] => ([], Except.ok ())
  | (region, stages) :: rest =>
      let piped := ctx.renumerate stages
      match post_pipeline ctx.appName (ctx.postResponse region piped) with
      | Except.error e =>
          ([Event.renumerateStages region, Event.post region], Except.error e)
      | Except.ok _ =>
          let tail := postRegions ctx rest
          (Event.renumerateStages region :: Event.post region :: tail.1, tail.2)

/-- create_pipeline (lines 131 to 187): clean previously generated pipelines,
resolve the region-to-environments mapping, assemble one pipeline per region,
then renumber and POST each; returns True on success. -/
def create_pipeline (ctx : Ctx) : List Event × Except Err Bool :=
  let re := resolveRegionsEnvs ctx.envs ctx.regionsOf
  let asm := assembleRegions ctx re
  match asm.2 with
  | Except.error e => (Event.cleanPipelines :: asm.1, Except.error e)
  | Except.ok pipelines =>
      let po := postRegions ctx pipelines
      match po.2 with
      | Except.error e => (Event.cleanPipelines :: (asm.1 ++ po.1), Except.error e)
      | Except.ok _ => (Event.cleanPipelines :: (asm.1 ++ po.1), Except.ok true)

/-- Assembled pipelines of a run, before renumbering and POSTing. -/
def assembledPipelines (ctx : Ctx) : Except Err (List (Region × List Stage)) :=
  (assembleRegions ctx (resolveRegionsEnvs ctx.envs ctx.regionsOf)).2

/-- Block a given environment contributes in a region: the rendered block when
its subnet data resolves, nothing when the environment is unavailable there. -/
def blockOf (ctx : Ctx) (region : Region) (prev : Option Env) (e : Env) :
    List Stage :=
  match ctx.subnets e region with
  | some sd => ctx.constructBlock e prev region sd
  | none => []

/-- Environments of a region whose subnet data resolves. -/
def availableEnvs (ctx : Ctx) (region : Region) (envs : List Env) : List Env :=
  envs.filter (fun e => (ctx.subnets e region).isSome)

/-- Specification-side description of assembly: the blocks of the listed
environments concatenated in order, each rendered with the environment
before it in the list as predecessor. -/
def chainedBlocks (ctx : Ctx) (region : Region) (prev : Option Env) :
    List Env → List Stage
  | [] => []
  | e :: rest => blockOf ctx region prev e ++ chainedBlocks ctx region (some e) rest

/-- Stage counts of the blocks of the listed environments, with the same
predecessor threading as chainedBlocks. -/
def blockLens (ctx : Ctx) (region : Region) (prev : Option Env) :
    List Env → List Nat
  | [] => []
  | e :: rest => (blockOf ctx region prev e).length :: blockLens ctx region (some e) rest

/-- Environment and predecessor of every renderBlock event of a trace. -/
def renderPairs : List Event → List (Env × Option Env)
  | [] => []
  | Event.renderBlock e p _ :: rest => (e, p) :: renderPairs rest
  | _ :: rest => renderPairs rest

/-- Specification-side chaining: the first listed environment gets the given
predecessor, every later one gets the environment just before it. -/
def chainPairs (prev : Option Env) : List Env → List (Env × Option Env)
  | [] => []
  | e :: rest => (e, prev) :: chainPairs (some e) rest

/-- Regions of the post events of a trace, in order. -/
def postEvents : List Event → List Region
  | [] => []
  | Event.post r :: rest => r :: postEvents rest
  | _ :: rest => postEvents rest

/-- Trace of the publish loop: renumber and POST each region, stopping right
after the first POST whose response is not ok. -/
def postTraceOf (ctx : Ctx) : List (Region × List Stage) → List Event
  | [] => []
  | (r, st) :: rest =>
      if responseOk (ctx.postResponse r (ctx.renumerate st)) then
        Event.renumerateStages r :: Event.post r :: postTraceOf ctx rest
      else [Event.renumerateStages r, Event.post r]

/-- Regions whose pipeline is POSTed by the publish loop: every region up to
and including the first one whose response is not ok. -/
def postedUntilFailure (ctx : Ctx) : List (Region × List Stage) → List Region
  | [] => []
  | (r, st) :: rest =>
      if responseOk (ctx.postResponse r (ctx.renumerate st)) then
        r :: postedUntilFailure ctx rest
      else [r]

/-- Modelled from the spec: remote state as the number of generated pipelines
per region for the application.  The clean step (clean_pipelines, a module of
this repository outside the provided sources; section 4.4 of the spec) deletes
every previously generated pipeline of the application, and each successful
POST creates one pipeline for its region. -/
def applyTrace : (Region → Nat) → List Event → (Region → Nat)
  | _, Event.cleanPipelines :: rest => applyTrace (fun _ => 0) rest
  | st, Event.post r :: rest =>
      applyTrace (fun x => if x = r then st x + 1 else st x) rest
  | st, _ :: rest => applyTrace st rest
  | st, [] => st

/-- Character list comparison: the first list is an initial segment of the
second. -/
def leadsWith : List Char → List Char → Bool
  | [], _ => true
  | _ :: _, [] => false
  | a :: as, b :: bs => (a == b) && leadsWith as bs

/-- Character list search: the first list occurs contiguously in the second. -/
def occursIn (needle : List Char) : List Char → Bool
  | [] => leadsWith needle []
  | b :: bs => leadsWith needle (b :: bs) || occursIn needle bs

/-- Concrete run context: three environments over two regions, the stage
environment unavailable everywhere, every POST accepted. -/
def ctxA : Ctx :=
  ⟨"app1", ["dev", "stage", "prod"], exampleRegionsOf, 20,
    fun r => ["wrapper-" ++ r],
    fun e r => if e = "stage" then none else some ("net-" ++ e ++ "-" ++ r),
    fun e _ r _ => ["block-" ++ e ++ "-" ++ r],
    fun stages => stages,
    fun _ _ => ⟨200, "created"⟩⟩

/-- Concrete run context: one environment in one region, every POST rejected
with status 500 and body denied. -/
def ctx7 : Ctx :=
  ⟨"app1", ["dev"], fun e => if e = "dev" then ["us-east-1"] else [], 20,
    fun _ => ["w"],
    fun _ _ => none,
    fun _ _ _ _ => [],
    fun stages => stages,
    fun _ _ => ⟨500, "denied"⟩⟩

/-- Concrete run context: one environment in two regions, the POST of the
first region rejected with status 500, the second accepted. -/
def ctx9 : Ctx :=
  ⟨"app1", ["dev"], fun e => if e = "dev" then ["r1", "r2"] else [], 20,
    fun _ => ["w"],
    fun _ _ => none,
    fun _ _ _ _ => [],
    fun stages => stages,
    fun r _ => if r = "r1" then ⟨500, "bad"⟩ else ⟨200, "ok"⟩⟩

/-- Concrete run context with root_volume_size configured to 51. -/
def ctxB : Ctx :=
  ⟨"app1", ["dev"], fun e => if e = "dev" then ["us-east-1"] else [], 51,
    fun _ => ["w"],
    fun _ _ => none,
    fun _ _ _ _ => [],
    fun stages => stages,
    fun _ _ => ⟨200, "ok"⟩⟩

/-- Reading after one append step: the entry of the appended region gains the
environment at its end, every other entry is unchanged. -/
theorem lookupEnvs_addEnvRegion (acc : List (Region × List Env)) (q r : Region) (e : Env) :
    lookupEnvs (addEnvRegion acc q e) r =
      if q = r then lookupEnvs acc r ++ [e] else lookupEnvs acc r := by
  induction acc with
  | nil =>
      by_cases h : q = r <;> simp [addEnvRegion, lookupEnvs, h]
  | cons hd tl ih =>
      obtain ⟨p, es⟩ := hd
      by_cases hpq : p = q
      · subst hpq
        by_cases hpr : p = r <;> simp [addEnvRegion, lookupEnvs, hpr]
      · by_cases hpr : p = r
        · have hqr : ¬ q = r := fun hh => hpq (hpr.trans hh.symm)
          have hrq : ¬ r = q := fun hh => hqr hh.symm
          simp [addEnvRegion, lookupEnvs, hpq, hpr, hqr, hrq]
        · simp [addEnvRegion, lookupEnvs, hpq, hpr, ih]

/-- Reading after the inner loop over the region list of one environment: the
environment is appended once per occurrence of the region in its list. -/
theorem lookupEnvs_foldl_region (e : Env) (rs : List Region)
    (acc : List (Region × List Env)) (r : Region) :
    lookupEnvs (rs.foldl (fun a x => addEnvRegion a x e) acc) r =
      lookupEnvs acc r ++ List.replicate (countR r rs) e := by
  induction rs generalizing acc with
  | nil => simp [countR]
  | cons x rest ih =>
      simp only [List.foldl_cons, ih, lookupEnvs_addEnvRegion, countR]
      by_cases h : x = r
      · simp [h, List.replicate_succ, Nat.add_comm]
      · simp [h]

/-- Reading after the full double loop, relative to any accumulator. -/
theorem lookupEnvs_resolve_aux (envs : List Env) (ro : Env → List Region)
    (acc : List (Region × List Env)) (r : Region) :
    lookupEnvs (envs.foldl
        (fun a e => (ro e).foldl (fun a2 x => addEnvRegion a2 x e) a) acc) r =
      lookupEnvs acc r ++ replicatedEnvs ro r envs := by
  induction envs generalizing acc with
  | nil => simp [replicatedEnvs]
  | cons e rest ih =>
      simp only [List.foldl_cons, ih, lookupEnvs_foldl_region, replicatedEnvs,
        List.append_assoc]

/-- A region absent from a list occurs zero times in it. -/
theorem countR_eq_zero_of_not_mem {r : Region} {rs : List Region} (h : r ∉ rs) :
    countR r rs = 0 := by
  induction rs with
  | nil => rfl
  | cons x rest ih =>
      have hx : ¬ x = r := fun hh => h (hh ▸ List.mem_cons_self x rest)
      have hr : r ∉ rest := fun hh => h (List.mem_cons_of_mem x hh)
      simp [countR, hx, ih hr]

/-- In a duplicate-free region list every region occurs at most once. -/
theorem countR_nodup {r : Region} {rs : List Region} (h : rs.Nodup) :
    countR r rs = if r ∈ rs then 1 else 0 := by
  induction rs with
  | nil => simp [countR]
  | cons x rest ih =>
      rw [List.nodup_cons] at h
      by_cases hx : x = r
      · subst hx
        simp [countR, countR_eq_zero_of_not_mem h.1]
      · have hx2 : ¬ r = x := fun hh => hx hh.symm
        simp [countR, hx, ih h.2, List.mem_cons, hx2]

/-- With duplicate-free region declarations the replicated description is the
filter of the declaring environments, in declaration order. -/
theorem replicatedEnvs_eq_filter (ro : Env → List Region) (r : Region)
    (envs : List Env) (h : ∀ e ∈ envs, (ro e).Nodup) :
    replicatedEnvs ro r envs = envs.filter (fun e => decide (r ∈ ro e)) := by
  induction envs with
  | nil => rfl
  | cons e rest ih =>
      have he : (ro e).Nodup := h e (List.mem_cons_self e rest)
      have hrest : ∀ x ∈ rest, (ro x).Nodup := fun x hx => h x (List.mem_cons_of_mem e hx)
      by_cases hm : r ∈ ro e
      · simp [replicatedEnvs, countR_nodup he, hm, ih hrest, List.filter_cons]
      · simp [replicatedEnvs, countR_nodup he, hm, ih hrest, List.filter_cons]

/-- Stage list produced by the inner loop: the initial stages followed by the
blocks of the available environments, concatenated in declaration order with
the predecessor threaded through the available environments only. -/
theorem processEnvs_stages (ctx : Ctx) (region : Region) (envs : List Env)
    (prev : Option Env) (stages : List Stage) :
    (processEnvs ctx region prev stages envs).2 =
      stages ++ chainedBlocks ctx region prev (availableEnvs ctx region envs) := by
  induction envs generalizing prev stages with
  | nil => simp [processEnvs, availableEnvs, chainedBlocks]
  | cons e rest ih =>
      cases h : ctx.subnets e region with
      | none =>
          simp [processEnvs, h, ih, availableEnvs, List.filter_cons]
      | some sd =>
          simp [processEnvs, h, ih, availableEnvs, List.filter_cons, chainedBlocks,
            blockOf, List.append_assoc]

/-- Length of the chained concatenation is the sum of the block lengths. -/
theorem chainedBlocks_length (ctx : Ctx) (region : Region) (prev : Option Env)
    (l : List Env) :
    (chainedBlocks ctx region prev l).length = (blockLens ctx region prev l).sum := by
  induction l generalizing prev with
  | nil => simp [chainedBlocks, blockLens]
  | cons e rest ih => simp [chainedBlocks, blockLens, ih]

/-- Render events of the inner loop: exactly the available environments, each
paired with the available environment just before it. -/
theorem processEnvs_renderPairs (ctx : Ctx) (region : Region) (envs : List Env)
    (prev : Option Env) (stages : List Stage) :
    renderPairs (processEnvs ctx region prev stages envs).1 =
      chainPairs prev (availableEnvs ctx region envs) := by
  induction envs generalizing prev stages with
  | nil => simp [processEnvs, availableEnvs, renderPairs, chainPairs]
  | cons e rest ih =>
      cases h : ctx.subnets e region with
      | none =>
          simp [processEnvs, h, ih, availableEnvs, List.filter_cons, renderPairs]
      | some sd =>
          simp [processEnvs, h, ih, availableEnvs, List.filter_cons, renderPairs,
            chainPairs]

/-- Every predecessor of a chained pair is the seed or one of the listed
environments. -/
theorem chainPairs_snd (prev : Option Env) (l : List Env) :
    ∀ pr ∈ chainPairs prev l, pr.2 = prev ∨ ∃ x ∈ l, pr.2 = some x := by
  induction l generalizing prev with
  | nil => intro pr hpr; simp [chainPairs] at hpr
  | cons e rest ih =>
      intro pr hpr
      simp only [chainPairs, List.mem_cons] at hpr
      rcases hpr with h1 | h2
      · subst h1; exact Or.inl rfl
      · rcases ih (some e) pr h2 with h3 | ⟨x, hx, h4⟩
        · exact Or.inr ⟨e, List.mem_cons_self e rest, h3⟩
        · exact Or.inr ⟨x, List.mem_cons_of_mem e hx, h4⟩

/-- An environment listed as available has resolvable subnet data. -/
theorem mem_availableEnvs {ctx : Ctx} {region : Region} {envs : List Env} {e : Env}
    (h : e ∈ availableEnvs ctx region envs) :
    (ctx.subnets e region).isSome = true := by
  have := List.of_mem_filter h
  simpa using this

/-- With root_volume_size within the limit, assembly succeeds and produces,
for every region in order, the wrapper stages followed by the chained blocks
of the available environments. -/
theorem assembleRegions_ok (ctx : Ctx) (h : ctx.rootVolumeSize ≤ 50)
    (pairs : List (Region × List Env)) :
    (assembleRegions ctx pairs).2 = Except.ok (pairs.map (fun p =>
      (p.1, ctx.wrapperStages p.1 ++
        chainedBlocks ctx p.1 none (availableEnvs ctx p.1 p.2)))) := by
  have h50 : ¬ ctx.rootVolumeSize > 50 := by omega
  induction pairs with
  | nil => simp [assembleRegions]
  | cons pr rest ih =>
      obtain ⟨region, envs⟩ := pr
      simp [assembleRegions, render_wrapper, h50, ih, processEnvs_stages]

/-- All events of the inner loop are neutral. -/
theorem processEnvs_neutral (ctx : Ctx) (region : Region) :
    ∀ (envs : List Env) (prev : Option Env) (stages : List Stage),
      ∀ ev ∈ (processEnvs ctx region prev stages envs).1, isNeutral ev = true := by
  intro envs
  induction envs with
  | nil => intro prev stages ev h; simp [processEnvs] at h
  | cons e rest ih =>
      intro prev stages ev h
      cases hs : ctx.subnets e region with
      | none =>
          simp only [processEnvs, hs, List.mem_cons] at h
          rcases h with h | h
          · subst h; rfl
          · exact ih _ _ ev h
      | some sd =>
          simp only [processEnvs, hs, List.mem_cons] at h
          rcases h with h | h
          · subst h; rfl
          · exact ih _ _ ev h

/-- All events of the assembly loop are neutral. -/
theorem assembleRegions_neutral (ctx : Ctx) :
    ∀ (pairs : List (Region × List Env)),
      ∀ ev ∈ (assembleRegions ctx pairs).1, isNeutral ev = true := by
  intro pairs
  induction pairs with
  | nil => intro ev h; simp [assembleRegions] at h
  | cons pr rest ih =>
      intro ev h
      obtain ⟨region, envs⟩ := pr
      by_cases h50 : ctx.rootVolumeSize > 50
      · simp [assembleRegions, render_wrapper, h50] at h
      · cases htail : (assembleRegions ctx rest).2 with
        | error e2 =>
            simp [assembleRegions, render_wrapper, h50, htail] at h
            rcases h with rfl | rfl | h | h
            · rfl
            · rfl
            · exact processEnvs_neutral ctx region envs none _ ev h
            · exact ih ev h
        | ok ps =>
            simp [assembleRegions, render_wrapper, h50, htail] at h
            rcases h with rfl | rfl | h | h
            · rfl
            · rfl
            · exact processEnvs_neutral ctx region envs none _ ev h
            · exact ih ev h

/-- The trace of the publish loop is the renumber and POST events up to and
including the first rejected POST. -/
theorem postRegions_trace (ctx : Ctx) :
    ∀ ps, (postRegions ctx ps).1 = postTraceOf ctx ps := by
  intro ps
  induction ps with
  | nil => rfl
  | cons pr rest ih =>
      obtain ⟨region, stages⟩ := pr
      cases hok : responseOk (ctx.postResponse region (ctx.renumerate stages)) with
      | true => simp [postRegions, postTraceOf, post_pipeline, hok, ih]
      | false => simp [postRegions, postTraceOf, post_pipeline, hok]

/-- The publish loop succeeds exactly when every response is ok. -/
theorem postRegions_ok_iff (ctx : Ctx) :
    ∀ ps, (postRegions ctx ps).2 = Except.ok () ↔
      ∀ p ∈ ps, responseOk (ctx.postResponse p.1 (ctx.renumerate p.2)) = true := by
  intro ps
  induction ps with
  | nil => simp [postRegions]
  | cons pr rest ih =>
      obtain ⟨region, stages⟩ := pr
      cases hok : responseOk (ctx.postResponse region (ctx.renumerate stages)) with
      | true => simp [postRegions, post_pipeline, hok, ih]
      | false => simp [postRegions, post_pipeline, hok]

/-- Remote state evolution splits over trace concatenation. -/
theorem applyTrace_append (l1 l2 : List Event) (st : Region → Nat) :
    applyTrace st (l1 ++ l2) = applyTrace (applyTrace st l1) l2 := by
  induction l1 generalizing st with
  | nil => rfl
  | cons ev rest ih => cases ev <;> simp [applyTrace, ih]

/-- Neutral events leave the remote state unchanged. -/
theorem applyTrace_neutral (l : List Event) (st : Region → Nat)
    (h : ∀ ev ∈ l, isNeutral ev = true) : applyTrace st l = st := by
  induction l generalizing st with
  | nil => rfl
  | cons ev rest ih =>
      have hev := h ev (List.mem_cons_self ev rest)
      have hrest : ∀ e2 ∈ rest, isNeutral e2 = true :=
        fun e2 he => h e2 (List.mem_cons_of_mem ev he)
      cases ev with
      | cleanPipelines => simp [isNeutral] at hev
      | post r => simp [isNeutral] at hev
      | amiLookup r => simpa [applyTrace] using ih st hrest
      | getTemplate r => simpa [applyTrace] using ih st hrest
      | skipEnv e r => simpa [applyTrace] using ih st hrest
      | renderBlock e p r => simpa [applyTrace] using ih st hrest
      | renumerateStages r => simpa [applyTrace] using ih st hrest

/-- When every response is ok, the publish trace adds one pipeline per POSTed
region occurrence. -/
theorem applyTrace_postTraceOf (ctx : Ctx) (ps : List (Region × List Stage))
    (h : ∀ p ∈ ps, responseOk (ctx.postResponse p.1 (ctx.renumerate p.2)) = true)
    (st : Region → Nat) (r : Region) :
    applyTrace st (postTraceOf ctx ps) r = st r + countR r (ps.map Prod.fst) := by
  induction ps generalizing st with
  | nil => simp [postTraceOf, applyTrace, countR]
  | cons pr rest ih =>
      obtain ⟨q, stg⟩ := pr
      have hq := h (q, stg) (List.mem_cons_self (q, stg) rest)
      have hrest : ∀ p ∈ rest, responseOk (ctx.postResponse p.1 (ctx.renumerate p.2)) = true :=
        fun p hp => h p (List.mem_cons_of_mem (q, stg) hp)
      simp only [postTraceOf, hq, if_true, applyTrace, ih hrest, List.map_cons, countR]
      by_cases hrq : r = q
      · subst hrq
        simp
        omega
      · have hqr : ¬ q = r := fun hh => hrq hh.symm
        simp [hrq, hqr]

/-- Every region of the list is POSTed when every response is ok. -/
theorem post_mem_postTraceOf (ctx : Ctx) (ps : List (Region × List Stage))
    (h : ∀ p ∈ ps, responseOk (ctx.postResponse p.1 (ctx.renumerate p.2)) = true)
    (r : Region) (hr : r ∈ ps.map Prod.fst) :
    Event.post r ∈ postTraceOf ctx ps := by
  induction ps with
  | nil => simp at hr
  | cons pr rest ih =>
      obtain ⟨q, stg⟩ := pr
      have hq := h (q, stg) (List.mem_cons_self (q, stg) rest)
      have hrest : ∀ p ∈ rest, responseOk (ctx.postResponse p.1 (ctx.renumerate p.2)) = true :=
        fun p hp => h p (List.mem_cons_of_mem (q, stg) hp)
      simp only [List.map_cons, List.mem_cons] at hr
      rcases hr with rfl | hr
      · simp [postTraceOf, hq]
      · simp [postTraceOf, hq, ih hrest hr]

/-- A POSTed region is a region of the pipeline list. -/
theorem postTraceOf_post_mem (ctx : Ctx) (ps : List (Region × List Stage))
    (r : Region) (h : Event.post r ∈ postTraceOf ctx ps) : r ∈ ps.map Prod.fst := by
  induction ps with
  | nil => simp [postTraceOf] at h
  | cons pr rest ih =>
      obtain ⟨q, stg⟩ := pr
      cases hq : responseOk (ctx.postResponse q (ctx.renumerate stg)) with
      | true =>
          simp [postTraceOf, hq] at h
          rcases h with h | h
          · simp [h]
          · simp [ih h]
      | false =>
          simp [postTraceOf, hq] at h
          simp [h]

/-- Keys after one append step: unchanged when the region is already present,
extended at the end otherwise. -/
theorem keysOf_addEnvRegion (acc : List (Region × List Env)) (q : Region) (e : Env) :
    keysOf (addEnvRegion acc q e) =
      if q ∈ keysOf acc then keysOf acc else keysOf acc ++ [q] := by
  induction acc with
  | nil => simp [addEnvRegion, keysOf]
  | cons hd tl ih =>
      obtain ⟨p, es⟩ := hd
      by_cases hpq : p = q
      · subst hpq
        simp [addEnvRegion, keysOf, List.mem_cons]
      · have hqp : ¬ q = p := fun hh => hpq hh.symm
        by_cases hmem : q ∈ List.map Prod.fst tl
        · simp [addEnvRegion, keysOf, hpq, hqp, hmem, List.mem_cons] at ih ⊢
          simp [ih]
        · simp [addEnvRegion, keysOf, hpq, hqp, hmem, List.mem_cons] at ih ⊢
          simp [ih]

/-- One append step preserves duplicate-freedom of the keys. -/
theorem nodup_keysOf_addEnvRegion (acc : List (Region × List Env)) (q : Region)
    (e : Env) (h : (keysOf acc).Nodup) : (keysOf (addEnvRegion acc q e)).Nodup := by
  rw [keysOf_addEnvRegion]
  by_cases hmem : q ∈ keysOf acc
  · simpa [hmem] using h
  · simp [hmem, List.nodup_append, h]

/-- The inner region loop preserves duplicate-freedom of the keys. -/
theorem nodup_keysOf_foldl_region (e : Env) (rs : List Region) :
    ∀ acc, (keysOf acc).Nodup →
      (keysOf (rs.foldl (fun a x => addEnvRegion a x e) acc)).Nodup := by
  induction rs with
  | nil => intro acc h; exact h
  | cons x rest ih =>
      intro acc h
      exact ih _ (nodup_keysOf_addEnvRegion acc x e h)

/-- The resolved mapping has duplicate-free keys: each region appears once. -/
theorem nodup_keysOf_resolve (envs : List Env) (ro : Env → List Region) :
    (keysOf (resolveRegionsEnvs envs ro)).Nodup := by
  have main : ∀ (l : List Env) (acc : List (Region × List Env)), (keysOf acc).Nodup →
      (keysOf (l.foldl
        (fun a e => (ro e).foldl (fun a2 x => addEnvRegion a2 x e) a) acc)).Nodup := by
    intro l
    induction l with
    | nil => intro acc h; exact h
    | cons e rest ih =>
        intro acc h
        exact ih _ (nodup_keysOf_foldl_region e (ro e) acc h)
  exact main envs [] (by simp [keysOf])

/-- Successful assembly keeps the regions of its input, in order. -/
theorem assembleRegions_map_fst (ctx : Ctx) :
    ∀ (pairs : List (Region × List Env)) (ps : List (Region × List Stage)),
      (assembleRegions ctx pairs).2 = Except.ok ps →
        ps.map Prod.fst = pairs.map Prod.fst := by
  intro pairs
  induction pairs with
  | nil =>
      intro ps h
      simp [assembleRegions] at h
      simp [← h]
  | cons pr rest ih =>
      intro ps h
      obtain ⟨region, envs⟩ := pr
      by_cases h50 : ctx.rootVolumeSize > 50
      · simp [assembleRegions, render_wrapper, h50] at h
      · cases htail : (assembleRegions ctx rest).2 with
        | error e2 => simp [assembleRegions, render_wrapper, h50, htail] at h
        | ok ps2 =>
            simp [assembleRegions, render_wrapper, h50, htail] at h
            subst h
            simp [ih ps2 htail]

/-- Shape of a successful run: assembly succeeded, every POST succeeded, and
the trace is the clean step followed by the assembly events and the publish
events. -/
theorem create_pipeline_ok_shape (ctx : Ctx)
    (h : (create_pipeline ctx).2 = Except.ok true) :
    ∃ ps, (assembleRegions ctx (resolveRegionsEnvs ctx.envs ctx.regionsOf)).2 = Except.ok ps ∧
      (postRegions ctx ps).2 = Except.ok () ∧
      (create_pipeline ctx).1 =
        Event.cleanPipelines ::
          ((assembleRegions ctx (resolveRegionsEnvs ctx.envs ctx.regionsOf)).1 ++
            postTraceOf ctx ps) := by
  cases hasm : (assembleRegions ctx (resolveRegionsEnvs ctx.envs ctx.regionsOf)).2 with
  | error e => simp [create_pipeline, hasm] at h
  | ok ps =>
      cases hpo : (postRegions ctx ps).2 with
      | error e => simp [create_pipeline, hasm, hpo] at h
      | ok u =>
          cases u
          exact ⟨ps, rfl, hpo,
            by simp [create_pipeline, hasm, hpo, postRegions_trace]⟩

/-- A region present among the resolved keys is counted exactly once. -/
theorem countR_resolve_keys (envs : List Env) (ro : Env → List Region) (r : Region)
    (h : r ∈ keysOf (resolveRegionsEnvs envs ro)) :
    countR r (keysOf (resolveRegionsEnvs envs ro)) = 1 := by
  rw [countR_nodup (nodup_keysOf_resolve envs ro)]
  simp [h]

/-- An environment read for a region comes from an entry of the mapping. -/
theorem lookupEnvs_mem (m : List (Region × List Env)) (r : Region) (e : Env)
    (h : e ∈ lookupEnvs m r) : ∃ L, (r, L) ∈ m ∧ e ∈ L := by
  induction m with
  | nil => simp [lookupEnvs] at h
  | cons hd tl ih =>
      obtain ⟨q, es⟩ := hd
      by_cases hq : q = r
      · subst hq
        simp [lookupEnvs] at h
        exact ⟨es, List.mem_cons_self _ _, h⟩
      · simp [lookupEnvs, hq] at h
        obtain ⟨L, hL, he⟩ := ih h
        exact ⟨L, List.mem_cons_of_mem _ hL, he⟩

/-- An unavailable environment of the walked list yields its skip record. -/
theorem processEnvs_skip_mem (ctx : Ctx) (region : Region) :
    ∀ (envs : List Env) (prev : Option Env) (stages : List Stage) (e : Env),
      e ∈ envs → ctx.subnets e region = none →
      Event.skipEnv e region ∈ (processEnvs ctx region prev stages envs).1 := by
  intro envs
  induction envs with
  | nil => intro prev stages e he _; simp at he
  | cons x rest ih =>
      intro prev stages e he hn
      rcases List.mem_cons.mp he with rfl | he2
      · simp [processEnvs, hn]
      · cases hx : ctx.subnets x region with
        | none =>
            simp only [processEnvs, hx, List.mem_cons]
            exact Or.inr (ih _ _ e he2 hn)
        | some sd =>
            simp only [processEnvs, hx, List.mem_cons]
            exact Or.inr (ih _ _ e he2 hn)

/-- An unavailable environment of any region entry yields its skip record in
the assembly trace. -/
theorem assembleRegions_skip_mem (ctx : Ctx) (h50 : ctx.rootVolumeSize ≤ 50) :
    ∀ (pairs : List (Region × List Env)) (r : Region) (L : List Env) (e : Env),
      (r, L) ∈ pairs → e ∈ L → ctx.subnets e r = none →
      Event.skipEnv e r ∈ (assembleRegions ctx pairs).1 := by
  have hgt : ¬ ctx.rootVolumeSize > 50 := by omega
  intro pairs
  induction pairs with
  | nil => intro r L e hm _ _; simp at hm
  | cons pr rest ih =>
      intro r L e hm he hn
      obtain ⟨region, envs⟩ := pr
      rcases List.mem_cons.mp hm with heq | hm2
      · cases heq
        cases htail : (assembleRegions ctx rest).2 with
        | error e2 =>
            simp [assembleRegions, render_wrapper, hgt, htail,
              processEnvs_skip_mem ctx r L none (ctx.wrapperStages r) e he hn]
        | ok ps =>
            simp [assembleRegions, render_wrapper, hgt, htail,
              processEnvs_skip_mem ctx r L none (ctx.wrapperStages r) e he hn]
      · cases htail : (assembleRegions ctx rest).2 with
        | error e2 =>
            simp [assembleRegions, render_wrapper, hgt, htail,
              ih r L e hm2 he hn]
        | ok ps =>
            simp [assembleRegions, render_wrapper, hgt, htail,
              ih r L e hm2 he hn]

/-- C1: for every region in the resolved region-to-environments mapping, the
assembled pipeline of that region is the wrapper stages followed by the stage
blocks of the available environments of the region, concatenated in the
original declaration order of the environments (wrapper first, then the
environments in order). -/
theorem c1_assembly_concatenation (ctx : Ctx) (h : ctx.rootVolumeSize ≤ 50) :
    assembledPipelines ctx = Except.ok
      ((resolveRegionsEnvs ctx.envs ctx.regionsOf).map (fun p =>
        (p.1, ctx.wrapperStages p.1 ++
          chainedBlocks ctx p.1 none (availableEnvs ctx p.1 p.2)))) := by
  simp [assembledPipelines, assembleRegions_ok ctx h]

/-- Witness for C1 at a concrete context. -/
theorem c1_assembly_concatenation_witness :
    ctxA.rootVolumeSize ≤ 50 ∧
    assembledPipelines ctxA = Except.ok
      ((resolveRegionsEnvs ctxA.envs ctxA.regionsOf).map (fun p =>
        (p.1, ctxA.wrapperStages p.1 ++
          chainedBlocks ctxA p.1 none (availableEnvs ctxA p.1 p.2)))) :=
  ⟨by decide, c1_assembly_concatenation ctxA (by decide)⟩

/-- C2: the stage count of the pipeline assembled for a region equals the
wrapper stage count plus the sum of the stage counts of the blocks rendered
for the available environments of the region; assembly drops and duplicates
nothing. -/
theorem c2_stage_count_conservation (ctx : Ctx) (region : Region) (envs : List Env) :
    (processEnvs ctx region none (ctx.wrapperStages region) envs).2.length =
      (ctx.wrapperStages region).length +
        (blockLens ctx region none (availableEnvs ctx region envs)).sum := by
  simp [processEnvs_stages, chainedBlocks_length]

/-- C3: matrix resolution maps each region to exactly the environments that
declare that region (each environment assumed to list each region once), in
original declaration order, and the concrete example of the specification
resolves as stated. -/
theorem c3_matrix_resolution_order (envs : List Env) (ro : Env → List Region)
    (r : Region) (h : ∀ e ∈ envs, (ro e).Nodup) :
    lookupEnvs (resolveRegionsEnvs envs ro) r =
      envs.filter (fun e => decide (r ∈ ro e)) ∧
    resolveRegionsEnvs ["dev", "stage", "prod"] exampleRegionsOf =
      [("us-east-1", ["dev", "stage"]), ("us-west-2", ["stage", "prod"])] := by
  constructor
  · have h1 := lookupEnvs_resolve_aux envs ro [] r
    rw [replicatedEnvs_eq_filter ro r envs h] at h1
    simpa [resolveRegionsEnvs, lookupEnvs] using h1
  · rfl

/-- Witness for C3 at the concrete example of the specification. -/
theorem c3_matrix_resolution_order_witness :
    lookupEnvs (resolveRegionsEnvs ["dev", "stage", "prod"] exampleRegionsOf) "us-east-1" =
      (["dev", "stage", "prod"] : List Env).filter
        (fun e => decide (("us-east-1" : Region) ∈ exampleRegionsOf e)) ∧
    resolveRegionsEnvs ["dev", "stage", "prod"] exampleRegionsOf =
      [("us-east-1", ["dev", "stage"]), ("us-west-2", ["stage", "prod"])] :=
  c3_matrix_resolution_order ["dev", "stage", "prod"] exampleRegionsOf "us-east-1" (by decide)

/-- C4: block rendering in a region walks exactly the available environments,
giving the first one no predecessor and each later one the immediately
preceding available environment; an environment skipped as unavailable never
occurs as a predecessor. -/
theorem c4_chaining_predecessors (ctx : Ctx) (region : Region) (envs : List Env)
    (stages : List Stage) :
    renderPairs (processEnvs ctx region none stages envs).1 =
      chainPairs none (availableEnvs ctx region envs) ∧
    ∀ e : Env, ctx.subnets e region = none →
      ∀ pr ∈ renderPairs (processEnvs ctx region none stages envs).1,
        pr.2 ≠ some e := by
  constructor
  · exact processEnvs_renderPairs ctx region envs none stages
  · intro e hnone pr hpr heq
    rw [processEnvs_renderPairs ctx region envs none stages] at hpr
    rcases chainPairs_snd none (availableEnvs ctx region envs) pr hpr with h1 | ⟨x, hx, h2⟩
    · rw [heq] at h1
      cases h1
    · have hex : some e = some x := heq.symm.trans h2
      have hxe : e = x := Option.some.inj hex
      subst hxe
      have hs := mem_availableEnvs hx
      rw [hnone] at hs
      simp at hs

/-- Witness for C4 at a concrete context. -/
theorem c4_chaining_predecessors_witness :
    renderPairs (processEnvs ctxA "us-east-1" none [] ["dev", "stage", "prod"]).1 =
      chainPairs none (availableEnvs ctxA "us-east-1" ["dev", "stage", "prod"]) ∧
    (("prod", some "dev") : Env × Option Env).2 ≠ some "stage" :=
  ⟨(c4_chaining_predecessors ctxA "us-east-1" ["dev", "stage", "prod"] []).1,
   (c4_chaining_predecessors ctxA "us-east-1" ["dev", "stage", "prod"] []).2 "stage"
     (by decide) ("prod", some "dev") (by decide)⟩

/-- C5: the clean step is the first event of every run, so the deletion of
previously generated pipelines happens before any POST; and, under the spec
model of the remote state, executing a successful run twice in succession
leaves exactly one generated pipeline for every region the run POSTs. -/
theorem c5_idempotent_replacement (ctx : Ctx)
    (h : (create_pipeline ctx).2 = Except.ok true) :
    (create_pipeline ctx).1.head? = some Event.cleanPipelines ∧
    ∀ (st0 : Region → Nat) (r : Region), Event.post r ∈ (create_pipeline ctx).1 →
      applyTrace st0 ((create_pipeline ctx).1 ++ (create_pipeline ctx).1) r = 1 := by
  obtain ⟨ps, hasm, hpo, htr⟩ := create_pipeline_ok_shape ctx h
  have hA := assembleRegions_neutral ctx (resolveRegionsEnvs ctx.envs ctx.regionsOf)
  constructor
  · rw [htr]
    rfl
  · intro st0 r hr
    have hok : ∀ p ∈ ps, responseOk (ctx.postResponse p.1 (ctx.renumerate p.2)) = true :=
      (postRegions_ok_iff ctx ps).mp hpo
    have hkeys : ps.map Prod.fst =
        (resolveRegionsEnvs ctx.envs ctx.regionsOf).map Prod.fst :=
      assembleRegions_map_fst ctx _ ps hasm
    have hrpost : Event.post r ∈ postTraceOf ctx ps := by
      rw [htr] at hr
      rcases List.mem_cons.mp hr with habs | hr2
      · cases habs
      · rcases List.mem_append.mp hr2 with h3 | h3
        · have := hA _ h3
          simp [isNeutral] at this
        · exact h3
    have hrkey : r ∈ ps.map Prod.fst := postTraceOf_post_mem ctx ps r hrpost
    have hrkey2 : r ∈ keysOf (resolveRegionsEnvs ctx.envs ctx.regionsOf) := by
      rw [keysOf, ← hkeys]
      exact hrkey
    have hcount : countR r (ps.map Prod.fst) = 1 := by
      have h1 := countR_resolve_keys ctx.envs ctx.regionsOf r hrkey2
      rw [keysOf] at h1
      rw [hkeys]
      exact h1
    have hTstep : ∀ st : Region → Nat,
        applyTrace st (Event.cleanPipelines ::
          ((assembleRegions ctx (resolveRegionsEnvs ctx.envs ctx.regionsOf)).1 ++
            postTraceOf ctx ps)) =
          applyTrace (fun _ => 0) (postTraceOf ctx ps) := by
      intro st
      have h1 : applyTrace st (Event.cleanPipelines ::
          ((assembleRegions ctx (resolveRegionsEnvs ctx.envs ctx.regionsOf)).1 ++
            postTraceOf ctx ps)) =
          applyTrace (fun _ => 0)
            ((assembleRegions ctx (resolveRegionsEnvs ctx.envs ctx.regionsOf)).1 ++
              postTraceOf ctx ps) := by
        simp [applyTrace]
      rw [h1, applyTrace_append,
        applyTrace_neutral (assembleRegions ctx (resolveRegionsEnvs ctx.envs ctx.regionsOf)).1
          (fun _ => 0) hA]
    rw [htr, applyTrace_append, hTstep st0, hTstep]
    rw [applyTrace_postTraceOf ctx ps hok (fun _ => 0) r]
    simp [hcount]

/-- Witness for C5 at a concrete context. -/
theorem c5_idempotent_replacement_witness :
    (create_pipeline ctxA).1.head? = some Event.cleanPipelines ∧
    applyTrace (fun _ => 7) ((create_pipeline ctxA).1 ++ (create_pipeline ctxA).1)
      "us-east-1" = 1 := by
  have h : (create_pipeline ctxA).2 = Except.ok true := by rfl
  exact ⟨(c5_idempotent_replacement ctxA h).1,
    (c5_idempotent_replacement ctxA h).2 (fun _ => 7) "us-east-1" (by decide)⟩

/-- C8: an environment mapped to a region but without resolvable subnet data
for it is skipped with an informational record; the skip raises no error, and
with every response ok the pipeline of the region is still assembled and
POSTed. -/
theorem c8_skip_missing_subnets (ctx : Ctx) (h50 : ctx.rootVolumeSize ≤ 50)
    (hpost : ∀ (region : Region) (stages : List Stage),
      responseOk (ctx.postResponse region stages) = true)
    (r : Region) (e : Env)
    (he : e ∈ lookupEnvs (resolveRegionsEnvs ctx.envs ctx.regionsOf) r)
    (hnone : ctx.subnets e r = none) :
    Event.skipEnv e r ∈ (create_pipeline ctx).1 ∧
    (create_pipeline ctx).2 = Except.ok true ∧
    Event.post r ∈ (create_pipeline ctx).1 := by
  obtain ⟨L, hmem, hel⟩ := lookupEnvs_mem _ r e he
  have hasm := assembleRegions_ok ctx h50 (resolveRegionsEnvs ctx.envs ctx.regionsOf)
  have hok : ∀ p ∈ ((resolveRegionsEnvs ctx.envs ctx.regionsOf).map (fun p =>
      (p.1, ctx.wrapperStages p.1 ++ chainedBlocks ctx p.1 none (availableEnvs ctx p.1 p.2)))),
      responseOk (ctx.postResponse p.1 (ctx.renumerate p.2)) = true :=
    fun p _ => hpost p.1 (ctx.renumerate p.2)
  have hpo := (postRegions_ok_iff ctx _).mpr hok
  have hres : (create_pipeline ctx).2 = Except.ok true := by
    simp [create_pipeline, hasm, hpo]
  have htr : (create_pipeline ctx).1 = Event.cleanPipelines ::
      ((assembleRegions ctx (resolveRegionsEnvs ctx.envs ctx.regionsOf)).1 ++
        postTraceOf ctx ((resolveRegionsEnvs ctx.envs ctx.regionsOf).map (fun p =>
          (p.1, ctx.wrapperStages p.1 ++
            chainedBlocks ctx p.1 none (availableEnvs ctx p.1 p.2))))) := by
    simp [create_pipeline, hasm, hpo, postRegions_trace]
  refine ⟨?_, hres, ?_⟩
  · rw [htr]
    exact List.mem_cons_of_mem _ (List.mem_append_left _
      (assembleRegions_skip_mem ctx h50 _ r L e hmem hel hnone))
  · rw [htr]
    refine List.mem_cons_of_mem _ (List.mem_append_right _ ?_)
    refine post_mem_postTraceOf ctx _ hok r ?_
    have hfst : r ∈ (resolveRegionsEnvs ctx.envs ctx.regionsOf).map Prod.fst :=
      List.mem_map_of_mem Prod.fst hmem
    simpa [List.map_map, Function.comp] using hfst

/-- Witness for C8 at a concrete context: the stage environment has no subnet
entry for us-east-1 in ctxA. -/
theorem c8_skip_missing_subnets_witness :
    Event.skipEnv "stage" "us-east-1" ∈ (create_pipeline ctxA).1 ∧
    (create_pipeline ctxA).2 = Except.ok true ∧
    Event.post "us-east-1" ∈ (create_pipeline ctxA).1 :=
  c8_skip_missing_subnets ctxA (by decide) (fun _ _ => rfl) "us-east-1" "stage"
    (by decide) (by decide)

/-- C10: with root_volume_size above 50 the wrapper raises before the AMI
lookup and before fetching the wrapper template, and the run assembles and
publishes nothing: its trace is the clean step alone, with no POST event. -/
theorem c10_root_volume_size_guard (ctx : Ctx) (h : ctx.rootVolumeSize > 50)
    (region : Region) :
    render_wrapper ctx region = ([], Except.error (Err.creationFailed
      ("Setting root_volume_size over 50G is not allowed. We found " ++
        toString ctx.rootVolumeSize ++ "G in your configs."))) ∧
    (create_pipeline ctx).1 = [Event.cleanPipelines] ∧
    ∀ r2 : Region, Event.post r2 ∉ (create_pipeline ctx).1 := by
  have htrace : (create_pipeline ctx).1 = [Event.cleanPipelines] := by
    cases hre : resolveRegionsEnvs ctx.envs ctx.regionsOf with
    | nil => simp [create_pipeline, hre, assembleRegions, postRegions]
    | cons pr rest =>
        obtain ⟨r2, envs2⟩ := pr
        simp [create_pipeline, hre, assembleRegions, render_wrapper, h]
  refine ⟨by simp [render_wrapper, h], htrace, ?_⟩
  intro r2
  rw [htrace]
  simp

/-- Witness for C10 at a concrete context with root_volume_size 51. -/
theorem c10_root_volume_size_guard_witness :
    render_wrapper ctxB "us-east-1" = ([], Except.error (Err.creationFailed
      ("Setting root_volume_size over 50G is not allowed. We found " ++
        toString ctxB.rootVolumeSize ++ "G in your configs."))) ∧
    (create_pipeline ctxB).1 = [Event.cleanPipelines] ∧
    ∀ r2 : Region, Event.post r2 ∉ (create_pipeline ctxB).1 :=
  c10_root_volume_size_guard ctxB (by decide) "us-east-1"

/-- C6 counterexample: a 301 response has no 2xx status, yet post_pipeline
returns without raising, because the ok flag of requests is status below 400,
not status in the 2xx range. -/
theorem c6_counterexample_redirect_status :
    post_pipeline "app1" ⟨301, "moved"⟩ = Except.ok () ∧
    ¬ (200 ≤ 301 ∧ 301 ≤ 299) := by
  constructor
  · rfl
  · decide

/-- C6 amended: post_pipeline raises exactly when the response status is 400
or above (the response is not ok); every 2xx response returns without error. -/
theorem c6_amended_not_ok_iff (appName : String) (r : Response) :
    ((∃ e, post_pipeline appName r = Except.error e) ↔ 400 ≤ r.status) ∧
    (200 ≤ r.status ∧ r.status ≤ 299 → post_pipeline appName r = Except.ok ()) := by
  constructor
  · constructor
    · rintro ⟨e, he⟩
      by_cases hlt : r.status < 400
      · simp [post_pipeline, responseOk, hlt] at he
      · omega
    · intro hge
      have hlt : ¬ r.status < 400 := by omega
      refine ⟨Err.creationFailed
        ("Failed to create pipeline for " ++ appName ++ ": " ++ r.body), ?_⟩
      simp [post_pipeline, responseOk, hlt]
  · intro h2
    have hlt : r.status < 400 := by omega
    simp [post_pipeline, responseOk, hlt]

/-- Witness for the amended C6 at a concrete 201 response. -/
theorem c6_amended_not_ok_iff_witness :
    ((∃ e, post_pipeline "app1" ⟨201, "ok"⟩ = Except.error e) ↔ 400 ≤ (201 : Nat)) ∧
    (200 ≤ (201 : Nat) ∧ (201 : Nat) ≤ 299 →
      post_pipeline "app1" ⟨201, "ok"⟩ = Except.ok ()) :=
  c6_amended_not_ok_iff "app1" ⟨201, "ok"⟩

/-- C7 counterexample: publishing the pipeline of region us-east-1 with a
rejected response raises an error whose message carries the application name
and the payload but not the region: the region string occurs nowhere in it. -/
theorem c7_counterexample_no_region :
    (create_pipeline ctx7).2 = Except.error (Err.creationFailed
      "Failed to create pipeline for app1: denied") ∧
    Event.post "us-east-1" ∈ (create_pipeline ctx7).1 ∧
    occursIn ("us-east-1".toList)
      ("Failed to create pipeline for app1: denied".toList) = false := by
  refine ⟨by rfl, by decide, by decide⟩

/-- C7 amended: the error raised on a rejected POST carries the application
name and the remote payload verbatim, and is built from them alone; in
particular the region does not appear in it. -/
theorem c7_amended_message_content (appName : String) (r : Response)
    (h : responseOk r = false) :
    post_pipeline appName r = Except.error (Err.creationFailed
      ("Failed to create pipeline for " ++ appName ++ ": " ++ r.body)) := by
  simp [post_pipeline, h]

/-- Witness for the amended C7 at a concrete rejected response. -/
theorem c7_amended_message_content_witness :
    post_pipeline "app1" ⟨500, "denied"⟩ = Except.error (Err.creationFailed
      ("Failed to create pipeline for " ++ "app1" ++ ": " ++ "denied")) :=
  c7_amended_message_content "app1" ⟨500, "denied"⟩ (by decide)

/-- C9 counterexample: with two resolved regions and the POST of the first
rejected, the run raises and the second region is never POSTed, although it
is among the resolved regions. -/
theorem c9_counterexample_blocked_region :
    "r2" ∈ keysOf (resolveRegionsEnvs ctx9.envs ctx9.regionsOf) ∧
    (create_pipeline ctx9).2 = Except.error (Err.creationFailed
      "Failed to create pipeline for app1: bad") ∧
    Event.post "r2" ∉ (create_pipeline ctx9).1 ∧
    Event.post "r1" ∈ (create_pipeline ctx9).1 := by
  refine ⟨by decide, by rfl, by decide, by decide⟩

/-- C9 amended: a rejected POST aborts the publish loop: the POSTed regions
are exactly those up to and including the first region whose response is not
ok, so regions published before the failure are unaffected while the regions
after it are not published in that run. -/
theorem c9_amended_posts_until_failure (ctx : Ctx)
    (ps : List (Region × List Stage)) :
    postEvents (postRegions ctx ps).1 = postedUntilFailure ctx ps := by
  induction ps with
  | nil => rfl
  | cons pr rest ih =>
      obtain ⟨region, stages⟩ := pr
      cases hok : responseOk (ctx.postResponse region (ctx.renumerate stages)) with
      | true =>
          simp [postRegions, postedUntilFailure, post_pipeline, hok, postEvents, ih]
      | false =>
          simp [postRegions, postedUntilFailure, post_pipeline, hok, postEvents]
